import Mathlib

/-!
Verification of the concurrent task-group core of the goutils library
(`async/group.go`) and its progress facade (`progress/run.go`).

The Go code is shallowly embedded:

* A queued operation `func(context.Context) (T, error)` is abstracted to the
  outcome it produces when it is actually run, a pair `T × Option E`
  (`none` = nil error).  The derived context (`context.WithTimeout` /
  `context.WithCancel`) only influences those outcomes, so cancellation and
  deadline effects are already reflected in the queued outcome list.
* The results channel is modelled by the arrival order of the worker results:
  `wait` receives some permutation of the list of per-worker results.
* The semaphore channel that bounds concurrency is modelled by a small-step
  transition system (`SemStep`): a launch first acquires a free slot
  (possible only when fewer than `C` slots are held), a finished worker
  releases its slot.
* The progress tracker is modelled by the list of events (`Start`, `Inc`,
  `Stop`) issued to it during a call.
-/

namespace Goutils

/-- Embeds `async.Result[T]`: value, error and the submission index `i`
used to order the results. -/
structure Result (T E : Type) where
  value : T
  err : Option E
  i : Nat
  deriving DecidableEq, Repr

/-- Embeds `async.Group[T]`: configuration set by the `Set*` methods plus the
queued operations, each abstracted to the outcome it produces when run. -/
structure Group (T E : Type) where
  cancelOnErr : Bool
  timeout : Int
  semCap : Option Nat
  funcs : List (T × Option E)
  deriving DecidableEq, Repr

/-- Embeds `Group.SetMaxGoroutines`: `n > 0` installs a semaphore channel of
capacity `n`, otherwise the limit is cleared. -/
def Group.SetMaxGoroutines {T E : Type} (g : Group T E) (n : Int) : Group T E :=
  if n > 0 then { g with semCap := some n.toNat } else { g with semCap := none }

/-- Embeds `Group.SetCancelOnError`. -/
def Group.SetCancelOnError {T E : Type} (g : Group T E) (b : Bool) : Group T E :=
  { g with cancelOnErr := b }

/-- Embeds `Group.SetTimeout`. -/
def Group.SetTimeout {T E : Type} (g : Group T E) (d : Int) : Group T E :=
  { g with timeout := d }

/-- Embeds `Group.Queue`: appends an operation to the pending list. -/
def Group.Queue {T E : Type} (g : Group T E) (f : T × Option E) : Group T E :=
  { g with funcs := g.funcs ++ [f] }

/-- The result produced by worker `i0 + k` for the `k`-th function of `l`:
the goroutine body runs `v, err := f(runCtx)` and sends `Result[T]{v, err, i}`.
`workerResultsFrom i0 l` lists those results in submission order. -/
def workerResultsFrom {T E : Type} (i0 : Nat) : List (T × Option E) → List (Result T E)
  | [] => []
  | p :: rest => ⟨p.1, p.2, i0⟩ :: workerResultsFrom (i0 + 1) rest

/-- The results sent by the workers of all queued operations, in submission
order.  The results channel delivers exactly these, in some arrival order. -/
def workerResults {T E : Type} (funcs : List (T × Option E)) : List (Result T E) :=
  workerResultsFrom 0 funcs

/-- The `firstErr` update of the collection loop: the guard
`res.Err != nil && firstErr == nil` keeps the first error only. -/
def updFirstErr {T E : Type} (firstErr : Option E) (r : Result T E) : Option E :=
  match firstErr with
  | some e => some e
  | none => r.err

/-- Embeds the result-collection loop of `Group.wait`: for each of the `N`
results received from the channel (argument list, in arrival order) it stores
the result at its submission index (`results[res.i] = res`) and remembers the
first error seen.  The loop never exits early: it structurally consumes the
whole arrival list. -/
def collectLoop {T E : Type} :
    List (Result T E) → Option E → List (Result T E) → List (Result T E) × Option E
  | acc, firstErr, [] => (acc, firstErr)
  | acc, firstErr, r :: rest =>
      collectLoop (acc.set r.i r) (updFirstErr firstErr r) rest

/-- The first error in arrival order among the collected results,
mirroring the `res.Err != nil && firstErr == nil` update of `Group.wait`. -/
def firstError {T E : Type} : List (Result T E) → Option E
  | [] => none
  | r :: rest =>
      match r.err with
      | some e => some e
      | none => firstError rest

/-- Embeds `Group.wait`, the shared implementation of `Wait` and `WaitLax`.
`compl` is the arrival order of the worker results at the channel.
The derived context (timeout / cancel-on-error cancellation, the
`cancel()` call on the first error when `cancelOnErr && !lax`) only affects
the outcomes the operations produce, which are already fixed in `g.funcs`,
so `cancelOnErr` and `lax` do not further affect collection. -/
def Group.gwait {T E : Type} [Inhabited T] (g : Group T E) (lax : Bool)
    (compl : List (Result T E)) : List (Result T E) × Option E :=
  -- results := make([]Result[T], len(g.funcs)) : zero-valued slots
  let _ := lax
  collectLoop (List.replicate g.funcs.length ⟨default, none, 0⟩) none compl

/-- The aggregated error returned by `Wait`: either the single first error
(cancel-on-error) or an `errors.List` of the individual errors. -/
inductive AggErr (E : Type) where
  | single : E → AggErr E
  | list : List E → AggErr E
  deriving DecidableEq, Repr

/-- Embeds `Group.Wait`: collect all results, then on error return
`(nil, firstErr)` under cancel-on-error, or `(nil, errs)` with the errors
gathered from the submission-ordered result slice; on success return the
values in submission order. -/
def Group.Wait {T E : Type} [Inhabited T] (g : Group T E)
    (compl : List (Result T E)) : Option (List T) × Option (AggErr E) :=
  let rs := g.gwait false compl
  match rs.2 with
  | some firstErr =>
      if g.cancelOnErr then (none, some (AggErr.single firstErr))
      else (none, some (AggErr.list (rs.1.filterMap Result.err)))
  | none => (some (rs.1.map Result.value), none)

/-- Embeds `Group.WaitLax`: collect and return all per-operation results. -/
def Group.WaitLax {T E : Type} [Inhabited T] (g : Group T E)
    (compl : List (Result T E)) : List (Result T E) :=
  (g.gwait true compl).1

/-! ### Helper lemmas about `workerResultsFrom` -/

theorem wrf_length {T E : Type} (i0 : Nat) (l : List (T × Option E)) :
    (workerResultsFrom i0 l).length = l.length := by
  induction l generalizing i0 with
  | nil => rfl
  | cons p rest ih => simp [workerResultsFrom, ih]

theorem wrf_getElem? {T E : Type} (l : List (T × Option E)) (i0 k : Nat) :
    (workerResultsFrom i0 l)[k]? =
      (l[k]?).map (fun p => Result.mk p.1 p.2 (i0 + k)) := by
  induction l generalizing i0 k with
  | nil => simp [workerResultsFrom]
  | cons p rest ih =>
      cases k with
      | zero => simp [workerResultsFrom]
      | succ k =>
          simp only [workerResultsFrom, List.getElem?_cons_succ, ih (i0 + 1) k]
          have : i0 + 1 + k = i0 + (k + 1) := by omega
          rw [this]

theorem wrf_i_ge {T E : Type} (i0 : Nat) (l : List (T × Option E)) :
    ∀ r ∈ workerResultsFrom i0 l, i0 ≤ r.i := by
  induction l generalizing i0 with
  | nil => intro r hr; simp [workerResultsFrom] at hr
  | cons p rest ih =>
      intro r hr
      simp only [workerResultsFrom, List.mem_cons] at hr
      rcases hr with h | h
      · subst h; exact Nat.le_refl i0
      · exact Nat.le_trans (Nat.le_succ i0) (ih (i0 + 1) r h)

theorem wrf_map_i_nodup {T E : Type} (i0 : Nat) (l : List (T × Option E)) :
    ((workerResultsFrom i0 l).map Result.i).Nodup := by
  induction l generalizing i0 with
  | nil => simp [workerResultsFrom]
  | cons p rest ih =>
      simp only [workerResultsFrom, List.map_cons, List.nodup_cons]
      constructor
      · intro hmem
        rcases List.mem_map.mp hmem with ⟨r, hr, hri⟩
        have := wrf_i_ge (i0 + 1) rest r hr
        omega
      · exact ih (i0 + 1)

theorem mem_workerResults {T E : Type} {funcs : List (T × Option E)}
    {r : Result T E} (hr : r ∈ workerResults funcs) :
    r.i < funcs.length ∧ (workerResults funcs)[r.i]? = some r := by
  rcases List.mem_iff_getElem?.mp hr with ⟨k, hk⟩
  rw [workerResults, wrf_getElem?] at hk
  rcases Option.map_eq_some'.mp hk with ⟨p, hp, hpr⟩
  have hik : r.i = k := by rw [← hpr]; simp
  have hklt : k < funcs.length := by
    by_contra hge
    rw [List.getElem?_eq_none (by omega)] at hp
    exact Option.noConfusion hp
  refine ⟨by omega, ?_⟩
  rw [hik, workerResults, wrf_getElem?, hp, Option.map_some']
  exact congrArg some hpr

theorem wrf_map_value {T E : Type} (i0 : Nat) (l : List (T × Option E)) :
    (workerResultsFrom i0 l).map Result.value = l.map Prod.fst := by
  induction l generalizing i0 with
  | nil => rfl
  | cons p rest ih => simp [workerResultsFrom, ih]

theorem wrf_filterMap_err {T E : Type} (i0 : Nat) (l : List (T × Option E)) :
    (workerResultsFrom i0 l).filterMap Result.err = l.filterMap Prod.snd := by
  induction l generalizing i0 with
  | nil => rfl
  | cons p rest ih =>
      cases hp : p.2 with
      | none => simp [workerResultsFrom, List.filterMap_cons, hp, ih]
      | some e => simp [workerResultsFrom, List.filterMap_cons, hp, ih]

/-! ### Helper lemmas about `collectLoop` -/

theorem collectLoop_fst_length {T E : Type} (compl : List (Result T E)) :
    ∀ (acc : List (Result T E)) (fe : Option E),
      (collectLoop acc fe compl).1.length = acc.length := by
  induction compl with
  | nil => intro acc fe; rfl
  | cons r rest ih =>
      intro acc fe
      rw [collectLoop, ih]
      exact List.length_set ..

theorem collectLoop_fst_untouched {T E : Type} (compl : List (Result T E)) :
    ∀ (acc : List (Result T E)) (fe : Option E) (j : Nat),
      (∀ r ∈ compl, r.i ≠ j) →
      (collectLoop acc fe compl).1[j]? = acc[j]? := by
  induction compl with
  | nil => intro acc fe j _; rfl
  | cons r rest ih =>
      intro acc fe j hne
      rw [collectLoop, ih _ _ j (fun x hx => hne x (List.mem_cons_of_mem r hx))]
      exact List.getElem?_set_ne (hne r (List.mem_cons_self r rest))

theorem collectLoop_fst_mem {T E : Type} (compl : List (Result T E)) :
    ∀ (acc : List (Result T E)) (fe : Option E) (r : Result T E),
      r ∈ compl → r.i < acc.length → ((compl.map Result.i).Nodup) →
      (collectLoop acc fe compl).1[r.i]? = some r := by
  induction compl with
  | nil => intro acc fe r hr; simp at hr
  | cons x rest ih =>
      intro acc fe r hr hlt hnd
      simp only [List.map_cons, List.nodup_cons] at hnd
      rcases List.mem_cons.mp hr with h | h
      · subst h
        rw [collectLoop]
        rw [collectLoop_fst_untouched rest _ _ r.i
          (fun y hy hyi => hnd.1 (hyi ▸ List.mem_map_of_mem Result.i hy))]
        exact List.getElem?_set_eq_of_lt r hlt
      · rw [collectLoop]
        exact ih _ _ r h (by rw [List.length_set]; exact hlt) hnd.2

theorem collectLoop_snd {T E : Type} (compl : List (Result T E)) :
    ∀ (acc : List (Result T E)) (fe : Option E),
      (collectLoop acc fe compl).2 =
        (match fe with
          | some e => some e
          | none => firstError compl) := by
  induction compl with
  | nil => intro acc fe; cases fe <;> rfl
  | cons r rest ih =>
      intro acc fe
      rw [collectLoop, ih]
      cases fe with
      | some e => rfl
      | none => rfl

theorem firstError_eq_none_iff {T E : Type} (l : List (Result T E)) :
    firstError l = none ↔ ∀ r ∈ l, r.err = none := by
  induction l with
  | nil => simp [firstError]
  | cons r rest ih =>
      cases hr : r.err with
      | some e => simp [firstError, hr]
      | none => simp [firstError, hr, ih]

/-! ### The key characterisation of `Group.wait` -/

theorem gwait_fst {T E : Type} [Inhabited T] (g : Group T E) (lax : Bool)
    (compl : List (Result T E))
    (hperm : compl.Perm (workerResults g.funcs)) :
    (g.gwait lax compl).1 = workerResults g.funcs := by
  have hlen : (g.gwait lax compl).1.length = g.funcs.length := by
    rw [Group.gwait, collectLoop_fst_length, List.length_replicate]
  have hwlen : (workerResults g.funcs).length = g.funcs.length :=
    wrf_length 0 g.funcs
  have hnd : (compl.map Result.i).Nodup := by
    have := (hperm.map Result.i).nodup_iff.mpr
    exact this (wrf_map_i_nodup 0 g.funcs)
  apply List.ext_getElem?
  intro j
  by_cases hj : j < g.funcs.length
  · obtain ⟨p, hp⟩ : ∃ p, g.funcs[j]? = some p :=
      ⟨_, List.getElem?_eq_getElem hj⟩
    have houtj : (workerResults g.funcs)[j]? = some ⟨p.1, p.2, j⟩ := by
      rw [workerResults, wrf_getElem?, hp, Option.map_some']
      simp
    have hmem : (⟨p.1, p.2, j⟩ : Result T E) ∈ compl := by
      exact hperm.mem_iff.mpr (List.mem_iff_getElem?.mpr ⟨j, houtj⟩)
    have := collectLoop_fst_mem compl
      (List.replicate g.funcs.length (⟨default, none, 0⟩ : Result T E)) none
      ⟨p.1, p.2, j⟩ hmem (by rw [List.length_replicate]; exact hj) hnd
    rw [Group.gwait]
    rw [this, houtj]
  · rw [List.getElem?_eq_none (by omega : (g.gwait lax compl).1.length ≤ j),
      List.getElem?_eq_none (by omega : (workerResults g.funcs).length ≤ j)]

theorem gwait_snd {T E : Type} [Inhabited T] (g : Group T E) (lax : Bool)
    (compl : List (Result T E)) :
    (g.gwait lax compl).2 = firstError compl := by
  rw [Group.gwait, collectLoop_snd]

theorem wrf_err_none {T E : Type} {funcs : List (T × Option E)}
    (hsucc : ∀ p ∈ funcs, p.2 = none) :
    ∀ r ∈ workerResults funcs, r.err = none := by
  intro r hr
  rcases List.mem_iff_getElem?.mp hr with ⟨k, hk⟩
  rw [workerResults, wrf_getElem?] at hk
  rcases Option.map_eq_some'.mp hk with ⟨p, hp, hpr⟩
  have hpm : p ∈ funcs := List.mem_iff_getElem?.mpr ⟨k, hp⟩
  rw [← hpr]
  exact hsucc p hpm

theorem mem_workerResults_of_getElem {T E : Type} {funcs : List (T × Option E)}
    {k : Nat} {p : T × Option E} (h : funcs[k]? = some p) :
    (⟨p.1, p.2, k⟩ : Result T E) ∈ workerResults funcs := by
  refine List.mem_iff_getElem?.mpr ⟨k, ?_⟩
  rw [workerResults, wrf_getElem?, h]
  simp

theorem firstError_ne_none {T E : Type} {g : Group T E}
    {compl : List (Result T E)}
    (hperm : compl.Perm (workerResults g.funcs))
    (hfail : ∃ p ∈ g.funcs, p.2 ≠ none) :
    firstError compl ≠ none := by
  rcases hfail with ⟨p, hpm, hpf⟩
  rcases List.mem_iff_getElem?.mp hpm with ⟨k, hk⟩
  intro hfe
  have hall := (firstError_eq_none_iff compl).mp hfe
  have hmem : (⟨p.1, p.2, k⟩ : Result T E) ∈ compl :=
    hperm.mem_iff.mpr (mem_workerResults_of_getElem hk)
  exact hpf (hall _ hmem)

/-- `Wait` on a batch with an error, cancel-on-error disabled: the composite
error lists the failing operations' errors in submission order. -/
theorem wait_no_cancel_fail_eq {T E : Type} [Inhabited T] (g : Group T E)
    (compl : List (Result T E))
    (hperm : compl.Perm (workerResults g.funcs))
    (hcoe : g.cancelOnErr = false)
    (hfail : ∃ p ∈ g.funcs, p.2 ≠ none) :
    g.Wait compl = (none, some (AggErr.list (g.funcs.filterMap Prod.snd))) := by
  rcases Option.ne_none_iff_exists'.mp (firstError_ne_none hperm hfail) with ⟨e, he⟩
  simp only [Group.Wait, gwait_snd, he, hcoe, Bool.false_eq_true, if_false,
    gwait_fst g false compl hperm, workerResults, wrf_filterMap_err]

/-! ### C1 -/

/-- C1: for every batch in which all queued operations succeed, `Wait`
returns (for any arrival order of the worker results) exactly the list of the
operations' values ordered by submission index — the value of operation `i`
is at position `i`, whatever the completion order was — and no error. -/
theorem wait_all_success_values_in_submission_order {T E : Type} [Inhabited T]
    (g : Group T E) (compl : List (Result T E))
    (hperm : compl.Perm (workerResults g.funcs))
    (hsucc : ∀ p ∈ g.funcs, p.2 = none) :
    g.Wait compl = (some (g.funcs.map Prod.fst), none) ∧
    (g.funcs.map Prod.fst).length = g.funcs.length ∧
    ∀ j : Nat, (g.funcs.map Prod.fst)[j]? = (g.funcs[j]?).map Prod.fst := by
  have hfe : firstError compl = none :=
    (firstError_eq_none_iff compl).mpr
      (fun r hr => wrf_err_none hsucc r (hperm.mem_iff.mp hr))
  refine ⟨?_, List.length_map _ _, fun j => by rw [List.getElem?_map]⟩
  simp only [Group.Wait, gwait_snd, hfe, gwait_fst g false compl hperm,
    workerResults, wrf_map_value]

/-- Witness for C1: two operations returning 1 and 2, the second completing
first; `Wait` still returns `[1, 2]` with no error. -/
theorem wait_all_success_values_in_submission_order_witness :
    ([⟨2, none, 1⟩, ⟨1, none, 0⟩] : List (Result Nat Nat)).Perm
        (workerResults [((1 : Nat), (none : Option Nat)), (2, none)]) ∧
    Group.Wait ⟨false, 0, none, [((1 : Nat), (none : Option Nat)), (2, none)]⟩
        [⟨2, none, 1⟩, ⟨1, none, 0⟩] =
      (some [1, 2], none) := by
  refine ⟨by decide, ?_⟩
  exact (wait_all_success_values_in_submission_order
    ⟨false, 0, none, [((1 : Nat), (none : Option Nat)), (2, none)]⟩
    [⟨2, none, 1⟩, ⟨1, none, 0⟩] (by decide) (by decide)).1

/-! ### C2 -/

/-- C2: with cancel-on-error enabled and at least one failing operation,
`Wait` returns `(nil, e)` where `e` is the first error in arrival
(completion) order of the worker results — not necessarily the error of the
lowest-index failing operation — and the error is a single one. -/
theorem wait_cancel_on_error_first_completed_error {T E : Type} [Inhabited T]
    (g : Group T E) (compl : List (Result T E)) (e : E)
    (hperm : compl.Perm (workerResults g.funcs))
    (hcoe : g.cancelOnErr = true)
    (hfe : firstError compl = some e) :
    g.Wait compl = (none, some (AggErr.single e)) := by
  simp only [Group.Wait, gwait_snd, hfe, hcoe, if_true]

/-- Witness for C2: operations 0 and 1 both fail (errors 10 and 20);
operation 1 completes first, so `Wait` returns its error 20, not the
lowest-index error 10. -/
theorem wait_cancel_on_error_first_completed_error_witness :
    ([⟨0, some 20, 1⟩, ⟨0, some 10, 0⟩] : List (Result Nat Nat)).Perm
        (workerResults [((0 : Nat), some (10 : Nat)), (0, some 20)]) ∧
    Group.Wait ⟨true, 0, none, [((0 : Nat), some (10 : Nat)), (0, some 20)]⟩
        [⟨0, some 20, 1⟩, ⟨0, some 10, 0⟩] =
      (none, some (AggErr.single 20)) := by
  refine ⟨by decide, ?_⟩
  exact wait_cancel_on_error_first_completed_error
    ⟨true, 0, none, [((0 : Nat), some (10 : Nat)), (0, some 20)]⟩
    [⟨0, some 20, 1⟩, ⟨0, some 10, 0⟩] 20 (by decide) rfl (by decide)

/-! ### C3 -/

/-- C3 counterexample: operations 0 and 1 fail with errors 0 and 1, and
operation 1 completes first.  Completion order of the failures is
error 1 then error 0, but `Wait` returns the composite `[0, 1]` — the
submission order — refuting the claim that the composite lists the errors in
the order the failures completed. -/
theorem wait_composite_error_completion_order_cx :
    ([⟨0, some 1, 1⟩, ⟨0, some 0, 0⟩] : List (Result Nat Nat)).Perm
        (workerResults [((0 : Nat), some (0 : Nat)), (0, some 1)]) ∧
    Group.Wait ⟨false, 0, none, [((0 : Nat), some (0 : Nat)), (0, some 1)]⟩
        [⟨0, some 1, 1⟩, ⟨0, some 0, 0⟩] =
      (none, some (AggErr.list [0, 1])) ∧
    AggErr.list [(0 : Nat), 1] ≠ AggErr.list [1, 0] := by
  decide

/-- C3 amended: with cancel-on-error disabled and at least one failing
operation, `Wait` returns a nil value and a composite error whose entries are
exactly the errors of the failing operations, one per failing operation,
listed in submission-index order (the errors are gathered from the
index-ordered result slice), regardless of completion order. -/
theorem wait_composite_error_submission_order {T E : Type} [Inhabited T]
    (g : Group T E) (compl : List (Result T E))
    (hperm : compl.Perm (workerResults g.funcs))
    (hcoe : g.cancelOnErr = false)
    (hfail : ∃ p ∈ g.funcs, p.2 ≠ none) :
    g.Wait compl = (none, some (AggErr.list (g.funcs.filterMap Prod.snd))) :=
  wait_no_cancel_fail_eq g compl hperm hcoe hfail

/-- Witness for C3 amended: same two failing operations completing in
reverse order; the composite is `[0, 1]`, the submission order. -/
theorem wait_composite_error_submission_order_witness :
    Group.Wait ⟨false, 0, none, [((0 : Nat), some (0 : Nat)), (0, some 1)]⟩
        [⟨0, some 1, 1⟩, ⟨0, some 0, 0⟩] =
      (none, some (AggErr.list [0, 1])) :=
  wait_composite_error_submission_order
    ⟨false, 0, none, [((0 : Nat), some (0 : Nat)), (0, some 1)]⟩
    [⟨0, some 1, 1⟩, ⟨0, some 0, 0⟩] (by decide) rfl
    ⟨(0, some 0), by decide, by decide⟩

/-! ### C4 -/

/-- C4: the collection loop shared by `Wait` and `WaitLax` consumes all `N`
worker results before returning — whatever the errors, the cancel-on-error
setting and the wait mode, every operation's result ends up recorded at its
submission index, so no operation is left unobserved when the call returns. -/
theorem wait_collects_all_results {T E : Type} [Inhabited T]
    (g : Group T E) (lax : Bool) (compl : List (Result T E))
    (hperm : compl.Perm (workerResults g.funcs)) :
    (g.gwait lax compl).1.length = g.funcs.length ∧
    ∀ j, (g.gwait lax compl).1[j]? =
      (g.funcs[j]?).map (fun p => Result.mk p.1 p.2 j) := by
  rw [gwait_fst g lax compl hperm]
  refine ⟨wrf_length 0 g.funcs, fun j => ?_⟩
  rw [workerResults, wrf_getElem?]
  simp

/-- Witness for C4: a batch whose first completion is an error under
cancel-on-error still has both results collected. -/
theorem wait_collects_all_results_witness :
    ([⟨0, some 7, 0⟩, ⟨2, none, 1⟩] : List (Result Nat Nat)).Perm
        (workerResults [((0 : Nat), some (7 : Nat)), (2, none)]) ∧
    ((Group.gwait ⟨true, 0, none, [((0 : Nat), some (7 : Nat)), (2, none)]⟩
        false [⟨0, some 7, 0⟩, ⟨2, none, 1⟩]).1.length = 2 ∧
      ∀ j, ((Group.gwait ⟨true, 0, none, [((0 : Nat), some (7 : Nat)), (2, none)]⟩
        false [⟨0, some 7, 0⟩, ⟨2, none, 1⟩]).1)[j]? =
        (([((0 : Nat), some (7 : Nat)), (2, none)])[j]?).map
          (fun p => Result.mk p.1 p.2 j)) := by
  refine ⟨by decide, ?_⟩
  exact wait_collects_all_results
    ⟨true, 0, none, [((0 : Nat), some (7 : Nat)), (2, none)]⟩
    false [⟨0, some 7, 0⟩, ⟨2, none, 1⟩] (by decide)

/-! ### C5 -/

/-- C5: `WaitLax` returns, for every batch and every arrival order, a slice
of exactly `N` per-operation outcomes, the outcome of operation `j` (its
value, its error and its index) sitting at position `j`; and the
cancel-on-error setting does not change the returned slice. -/
theorem waitlax_full_outcomes_at_submission_index {T E : Type} [Inhabited T]
    (g : Group T E) (compl : List (Result T E))
    (hperm : compl.Perm (workerResults g.funcs)) :
    (g.WaitLax compl).length = g.funcs.length ∧
    (∀ j, (g.WaitLax compl)[j]? =
      (g.funcs[j]?).map (fun p => Result.mk p.1 p.2 j)) ∧
    ∀ b, (g.SetCancelOnError b).WaitLax compl = g.WaitLax compl := by
  refine ⟨?_, fun j => ?_, fun b => rfl⟩
  · rw [Group.WaitLax, gwait_fst g true compl hperm]
    exact wrf_length 0 g.funcs
  · rw [Group.WaitLax, gwait_fst g true compl hperm, workerResults, wrf_getElem?]
    simp

/-- Witness for C5: a two-operation batch with one failure; `WaitLax`
returns both outcomes at their indices, for either cancel-on-error value. -/
theorem waitlax_full_outcomes_at_submission_index_witness :
    ([⟨0, some 7, 1⟩, ⟨5, none, 0⟩] : List (Result Nat Nat)).Perm
        (workerResults [((5 : Nat), (none : Option Nat)), (0, some 7)]) ∧
    ((Group.WaitLax ⟨false, 0, none, [((5 : Nat), (none : Option Nat)), (0, some 7)]⟩
        [⟨0, some 7, 1⟩, ⟨5, none, 0⟩]).length = 2 ∧
      (∀ j, (Group.WaitLax ⟨false, 0, none, [((5 : Nat), (none : Option Nat)), (0, some 7)]⟩
          [⟨0, some 7, 1⟩, ⟨5, none, 0⟩])[j]? =
        (([((5 : Nat), (none : Option Nat)), (0, some 7)])[j]?).map
          (fun p => Result.mk p.1 p.2 j)) ∧
      ∀ b, (Group.SetCancelOnError
          ⟨false, 0, none, [((5 : Nat), (none : Option Nat)), (0, some 7)]⟩ b).WaitLax
          [⟨0, some 7, 1⟩, ⟨5, none, 0⟩] =
        Group.WaitLax ⟨false, 0, none, [((5 : Nat), (none : Option Nat)), (0, some 7)]⟩
          [⟨0, some 7, 1⟩, ⟨5, none, 0⟩]) := by
  refine ⟨by decide, ?_⟩
  exact waitlax_full_outcomes_at_submission_index
    ⟨false, 0, none, [((5 : Nat), (none : Option Nat)), (0, some 7)]⟩
    [⟨0, some 7, 1⟩, ⟨5, none, 0⟩] (by decide)

/-! ### C9 -/

/-- The five-operation batch of C9: operations 0, 2, 4 fail with errors
100, 102, 104; operations 1 and 3 succeed. -/
def funcs9 : List (Nat × Option Nat) :=
  [(10, some 100), (11, none), (12, some 102), (13, none), (14, some 104)]

/-- C9 counterexample: with cancel-on-error disabled and operations 0, 2, 4
failing out of 5, `Wait` returns a composite error with three entries — the
three failing operations — not the claimed two. -/
theorem wait_three_failing_ops_two_errors_cx :
    (workerResults funcs9).Perm (workerResults funcs9) ∧
    Group.Wait ⟨false, 0, none, funcs9⟩ (workerResults funcs9) =
      (none, some (AggErr.list [100, 102, 104])) ∧
    ([100, 102, 104] : List Nat).length ≠ 2 := by
  decide

/-- C9 amended: for the five-operation batch with operations 0, 2 and 4
failing (errors 100, 102, 104) and 1, 3 succeeding, cancel-on-error
disabled, `Wait` returns a nil value slice and a composite error containing
exactly 3 entries, the errors of the three failing operations. -/
theorem wait_three_failing_ops_composite (compl : List (Result Nat Nat))
    (hperm : compl.Perm (workerResults funcs9)) :
    Group.Wait ⟨false, 0, none, funcs9⟩ compl =
      (none, some (AggErr.list [100, 102, 104])) ∧
    ([100, 102, 104] : List Nat).length = 3 := by
  have h := wait_no_cancel_fail_eq (⟨false, 0, none, funcs9⟩ : Group Nat Nat)
    compl hperm rfl ⟨(10, some 100), by decide, by decide⟩
  exact ⟨by rw [h]; rfl, rfl⟩

/-- Witness for C9 amended: the identity completion order. -/
theorem wait_three_failing_ops_composite_witness :
    Group.Wait ⟨false, 0, none, funcs9⟩ (workerResults funcs9) =
      (none, some (AggErr.list [100, 102, 104])) ∧
    ([100, 102, 104] : List Nat).length = 3 :=
  wait_three_failing_ops_composite (workerResults funcs9) (List.Perm.refl _)

/-! ### C6: the bounded-semaphore discipline of `Group.wait` -/

/-- State of the launcher/worker system of `Group.wait` under a semaphore
channel of capacity `C`: `next` is the index of the next operation the launch
loop will start, `active` the set of operations currently holding a
semaphore slot (acquired just before their goroutine is started, released by
the goroutine's deferred receive when it finishes). -/
structure SemState where
  next : Nat
  active : Finset Nat
  deriving DecidableEq

/-- Transitions of the launcher/worker system for `N` queued operations and
semaphore capacity `C`: `g.semCh <- struct{}{}` can proceed only while fewer
than `C` slots are held (launch), and `<-g.semCh` releases the slot of a
finished operation (finish). -/
inductive SemStep (N C : Nat) : SemState → SemState → Prop
  | launch (s : SemState) (h1 : s.next < N) (h2 : s.active.card < C) :
      SemStep N C s ⟨s.next + 1, insert s.next s.active⟩
  | finish (s : SemState) (i : Nat) (h : i ∈ s.active) :
      SemStep N C s ⟨s.next, s.active.erase i⟩

/-- States reachable from the start of `Group.wait` (no operation launched,
no slot held). -/
inductive SemReachable (N C : Nat) : SemState → Prop
  | init : SemReachable N C ⟨0, ∅⟩
  | step {s t : SemState} : SemReachable N C s → SemStep N C s t →
      SemReachable N C t

/-- C6: when a cap is installed by `SetMaxGoroutines` (necessarily a positive
one), then in every state the execution of `wait` can reach, the number of
operations holding a semaphore slot — hence the number actively running —
never exceeds the cap. -/
theorem max_goroutines_cap_invariant {T E : Type} (g : Group T E) (n : Int)
    (C N : Nat) (s : SemState)
    (hset : (g.SetMaxGoroutines n).semCap = some C)
    (hreach : SemReachable N C s) :
    0 < C ∧ s.active.card ≤ C := by
  constructor
  · by_cases hn : n > 0
    · simp only [Group.SetMaxGoroutines, hn, if_true, Option.some.injEq] at hset
      omega
    · simp only [Group.SetMaxGoroutines, hn, if_false] at hset
      exact absurd hset (by simp)
  · induction hreach with
    | init => simp
    | step hs hstep ih =>
        cases hstep with
        | launch h1 h2 =>
            exact le_trans (Finset.card_insert_le _ _) h2
        | finish i h =>
            exact le_trans (Finset.card_erase_le) ih

/-- Witness for C6: cap 1 set on a group, one operation launched and holding
the single slot; the active count 1 does not exceed the cap 1. -/
theorem max_goroutines_cap_invariant_witness :
    0 < 1 ∧ (SemState.mk 1 {0}).active.card ≤ 1 :=
  max_goroutines_cap_invariant (⟨false, 0, none, []⟩ : Group Nat Nat) 1 1 2
    ⟨1, {0}⟩ (by decide)
    (SemReachable.step SemReachable.init
      (SemStep.launch ⟨0, ∅⟩ (by decide) (by simp)))

/-! ### The progress facade, `progress/run.go` -/

/-- Events issued to the Spinner part of the progress Tracker during a call:
`Start(message, count)`, `Stop()` and `Inc()`. -/
inductive TrackerEvent where
  | start : String → Int → TrackerEvent
  | stop : TrackerEvent
  | inc : TrackerEvent
  deriving DecidableEq, Repr

/-- Embeds `progress.RunOptions`. -/
structure RunOptions where
  Message : String
  Count : Int
  Timeout : Int
  deriving DecidableEq, Repr

/-- Embeds `progress.RunParallelOptions`. -/
structure RunParallelOptions where
  Message : String
  Count : Int
  Concurrency : Int
  CancelOnError : Bool
  Timeout : Int
  deriving DecidableEq, Repr

/-- Embeds `defaultTimeout = 10 * time.Minute`, in nanoseconds. -/
def defaultTimeout : Int := 600000000000

/-- The timeout resolution of `RunT` and `RunParallelT`: a zero timeout is
replaced by the 10 minute default. -/
def resolveTimeout (t : Int) : Int := if t = 0 then defaultTimeout else t

/-- Embeds `progress.DefaultConcurrency` on a host with `numCPU` CPUs. -/
def DefaultConcurrency (numCPU : Int) : Int :=
  if numCPU > 0 then numCPU else 1

/-- The concurrency resolution of `RunParallelT`: a value below 1 is replaced
by `DefaultConcurrency`. -/
def resolveConcurrency (numCPU c : Int) : Int :=
  if c < 1 then DefaultConcurrency numCPU else c

/-- Observable outcome of `RunT`: the returned value and error, the tracker
events issued during the call, and whether `fn` was invoked. -/
structure RunOutput (T E : Type) where
  value : T
  err : Option E
  events : List TrackerEvent
  called : Bool
  deriving DecidableEq, Repr

/-- Embeds `progress.RunT` for a run in which the resolved timeout does not
expire: the tracker is started with the message and the count, `fn` runs on
its own goroutine, its result is received by the select, and the deferred
`tracker.Stop` runs on return.  The body of `RunT` contains no call to
`tracker.Inc` — per the `RunOptions.Count` documentation, incrementing is
left to the `RunFunc` itself. -/
def RunT {T E : Type} (opts : RunOptions) (fn : T × Option E) : RunOutput T E :=
  let _ := resolveTimeout opts.Timeout
  ⟨fn.1, fn.2,
    [TrackerEvent.start opts.Message opts.Count, TrackerEvent.stop], true⟩

/-- Observable outcome of `RunParallelT`: the returned value slice (a nil Go
slice is the empty list), the returned error, the tracker events sequenced
before the call returns, and the indices `fn` was launched with. -/
structure RPOutput (T E : Type) where
  values : List T
  err : Option (AggErr E)
  events : List TrackerEvent
  called : List Nat
  deriving DecidableEq, Repr

/-- Embeds the result-collection loop of `RunParallelT`: each result drained
from the channel (argument list, in arrival order; the channel result type
carries no index) appends its value on success; on error the loop either
returns at once with that single error (cancel-on-error) or appends the
error.  Each worker calls `tracker.Inc()` right after sending its result, so
each drained result contributes one increment.  When the loop finishes, a
non-empty error list is returned as the composite error, otherwise the values
in arrival order. -/
def rpLoop {T E : Type} (cancelOnError : Bool) :
    List (T × Option E) → List T → List E → List TrackerEvent →
      List T × Option (AggErr E) × List TrackerEvent
  | [], t, errs, incs =>
      if errs.isEmpty then (t, none, incs)
      else ([], some (AggErr.list errs), incs)
  | (v, none) :: rest, t, errs, incs =>
      rpLoop cancelOnError rest (t ++ [v]) errs (incs ++ [TrackerEvent.inc])
  | (_, some e) :: rest, t, errs, incs =>
      if cancelOnError then
        ([], some (AggErr.single e), incs ++ [TrackerEvent.inc])
      else rpLoop cancelOnError rest t (errs ++ [e]) (incs ++ [TrackerEvent.inc])

/-- Embeds `progress.RunParallelT` for a run in which the resolved timeout
does not expire.  `order` is the arrival order of the worker results.
`Count < 1` returns `(nil, nil)` before the tracker is even retrieved from
the context.  Otherwise the tracker is started with the message and count,
each index `0..Count-1` is launched as a goroutine (gated by the semaphore
channel sized to the resolved concurrency, whose discipline is `SemStep`),
the loop drains the results, and the deferred `tracker.Stop` runs on
return. -/
def RunParallelT {T E : Type} (opts : RunParallelOptions)
    (fn : Nat → T × Option E) (order : List Nat) : RPOutput T E :=
  if opts.Count < 1 then ⟨[], none, [], []⟩
  else
    let _ := resolveTimeout opts.Timeout
    let res := rpLoop opts.CancelOnError (order.map fn) [] [] []
    ⟨res.1, res.2.1,
      TrackerEvent.start opts.Message opts.Count :: res.2.2 ++ [TrackerEvent.stop],
      List.range opts.Count.toNat⟩

/-! ### Helper lemmas about `rpLoop` -/

theorem rpLoop_all_success {T E : Type} (c : Bool) (seq : List (T × Option E))
    (hs : ∀ r ∈ seq, r.2 = none) :
    ∀ (t : List T) (incs : List TrackerEvent),
      rpLoop c seq t [] incs =
        (t ++ seq.map Prod.fst, none,
          incs ++ List.replicate seq.length TrackerEvent.inc) := by
  induction seq with
  | nil => intro t incs; simp [rpLoop]
  | cons p rest ih =>
      intro t incs
      obtain ⟨v, e⟩ := p
      have he : e = none := hs (v, e) (List.mem_cons_self _ _)
      subst he
      rw [rpLoop, ih (fun r hr => hs r (List.mem_cons_of_mem _ hr))]
      simp [List.replicate_succ]

theorem rpLoop_inc_events {T E : Type} (seq : List (T × Option E)) :
    ∀ (t : List T) (errs : List E) (incs : List TrackerEvent),
      (rpLoop false seq t errs incs).2.2 =
        incs ++ List.replicate seq.length TrackerEvent.inc := by
  induction seq with
  | nil =>
      intro t errs incs
      rw [rpLoop]
      split <;> simp
  | cons p rest ih =>
      intro t errs incs
      obtain ⟨v, e⟩ := p
      cases e with
      | none => rw [rpLoop, ih]; simp [List.replicate_succ]
      | some e =>
          rw [rpLoop, if_neg (by simp), ih]
          simp [List.replicate_succ]

/-! ### C7 -/

/-- C7 counterexample: `RunParallelT` with `Count = 0` returns before the
tracker is retrieved, so no tracker event at all is issued — in particular
the reporter is not started and then stopped, as the claim asserts. -/
theorem runparallel_zero_count_tracker_untouched_cx :
    (RunParallelT ⟨"msg", 0, 0, false, 0⟩
        (fun _ => ((0 : Nat), (none : Option Nat))) []).events = [] ∧
    ([] : List TrackerEvent) ≠
      [TrackerEvent.start "msg" 0, TrackerEvent.stop] := by
  decide

/-- C7 amended: for every call to `RunParallelT` with `Count = 0` or
negative, the supplied function is never invoked, the returned value is the
empty (nil) result with a nil error, and the progress reporter is left
untouched — no start, increment or stop event is ever issued to it. -/
theorem runparallel_zero_count_noop {T E : Type} (opts : RunParallelOptions)
    (fn : Nat → T × Option E) (order : List Nat) (hc : opts.Count < 1) :
    RunParallelT opts fn order = ⟨[], none, [], []⟩ := by
  simp [RunParallelT, hc]

/-- Witness for C7 amended: a negative count with a nontrivial function and
arrival order still yields the constant no-op outcome. -/
theorem runparallel_zero_count_noop_witness :
    RunParallelT ⟨"m", -1, 3, true, 5⟩
        (fun i => ((i : Nat), some i)) [2, 1] =
      ⟨[], none, [], []⟩ :=
  runparallel_zero_count_noop ⟨"m", -1, 3, true, 5⟩
    (fun i => ((i : Nat), some i)) [2, 1] (by decide)

/-! ### C8 -/

/-- C8 counterexample: two operations returning their own index, with
operation 1 completing first.  `RunParallelT` returns `[1, 0]` — the
completion order — while `Group.Wait` on the same batch and the same
completion order returns `[0, 1]`; `RunParallelT` is not a delegation to the
task group and does not order the success values by submission index. -/
theorem runparallelt_differs_from_group_wait_cx :
    ([1, 0] : List Nat).Perm (List.range 2) ∧
    (RunParallelT ⟨"", 2, 0, false, 0⟩
        (fun i => ((i : Nat), (none : Option Nat))) [1, 0]).values = [1, 0] ∧
    Group.Wait ⟨false, 0, none, [((0 : Nat), (none : Option Nat)), (1, none)]⟩
        [⟨1, none, 1⟩, ⟨0, none, 0⟩] = (some [0, 1], none) ∧
    ([1, 0] : List Nat) ≠ [0, 1] := by
  decide

/-- C8 amended: `RunParallelT` runs its own collection loop rather than
delegating to the task group; for every `Count ≥ 1` and all operations
succeeding, it returns the values in completion (arrival) order — the value
of the i-th completed operation at position i — with a nil error, agreeing
with `Group.Wait` only when the completion order is the submission order. -/
theorem runparallelt_success_values_completion_order {T E : Type}
    (opts : RunParallelOptions) (fn : Nat → T × Option E) (order : List Nat)
    (hc : 1 ≤ opts.Count)
    (hperm : order.Perm (List.range opts.Count.toNat))
    (hsucc : ∀ i ∈ order, (fn i).2 = none) :
    (RunParallelT opts fn order).values = order.map (fun i => (fn i).1) ∧
    (RunParallelT opts fn order).err = none ∧
    (RunParallelT opts fn order).values.length = opts.Count.toNat := by
  have hnc : ¬ opts.Count < 1 := by omega
  have hs : ∀ r ∈ order.map fn, r.2 = none := by
    intro r hr
    rcases List.mem_map.mp hr with ⟨i, hi, hir⟩
    rw [← hir]
    exact hsucc i hi
  have hlen : order.length = opts.Count.toNat := by
    have := hperm.length_eq
    rwa [List.length_range] at this
  constructor
  · simp [RunParallelT, hnc, rpLoop_all_success opts.CancelOnError _ hs,
      List.map_map, Function.comp]
  constructor
  · simp [RunParallelT, hnc, rpLoop_all_success opts.CancelOnError _ hs]
  · simp [RunParallelT, hnc, rpLoop_all_success opts.CancelOnError _ hs, hlen]

/-- Witness for C8 amended: two succeeding operations completing in reverse
order yield the values in completion order `[11, 10]`. -/
theorem runparallelt_success_values_completion_order_witness :
    (RunParallelT ⟨"", 2, 0, false, 0⟩
        (fun i => ((i + 10 : Nat), (none : Option Nat))) [1, 0]).values =
      [11, 10] ∧
    (RunParallelT ⟨"", 2, 0, false, 0⟩
        (fun i => ((i + 10 : Nat), (none : Option Nat))) [1, 0]).err = none ∧
    (RunParallelT ⟨"", 2, 0, false, 0⟩
        (fun i => ((i + 10 : Nat), (none : Option Nat))) [1, 0]).values.length =
      (2 : Int).toNat :=
  runparallelt_success_values_completion_order ⟨"", 2, 0, false, 0⟩
    (fun i => ((i + 10 : Nat), (none : Option Nat))) [1, 0]
    (by decide) (by decide) (by decide)

/-! ### C10 -/

/-- C10 counterexample: a full `Run` call of a succeeding operation issues no
increment to the reporter at all — `RunT` contains no `tracker.Inc` call —
so the reporter has received 0 increments, not exactly 1 as claimed. -/
theorem run_no_automatic_increment_cx :
    (RunT ⟨"m", 1, 0⟩ ((0 : Nat), (none : Option Nat))).events.count
        TrackerEvent.inc = 0 ∧
    (0 : Nat) ≠ 1 := by
  decide

/-- C10 amended: `Run` performs no automatic increments — incrementing is
delegated to the supplied `RunFunc` — while `RunParallel` (cancel-on-error
disabled, all results drained) increments the reporter exactly once per
operation completion, success or failure: exactly `Count` increments for a
full call. -/
theorem increment_policy_run_and_runparallel {T E : Type}
    (opts1 : RunOptions) (fn1 : T × Option E)
    (opts : RunParallelOptions) (fn : Nat → T × Option E) (order : List Nat)
    (hc : 1 ≤ opts.Count) (hcoe : opts.CancelOnError = false)
    (hperm : order.Perm (List.range opts.Count.toNat)) :
    (RunT opts1 fn1).events.count TrackerEvent.inc = 0 ∧
    (RunParallelT opts fn order).events.count TrackerEvent.inc =
      opts.Count.toNat := by
  have hnc : ¬ opts.Count < 1 := by omega
  have hlen : order.length = opts.Count.toNat := by
    have := hperm.length_eq
    rwa [List.length_range] at this
  constructor
  · simp [RunT, List.count_cons, List.count_nil]
  · rw [RunParallelT, if_neg hnc]
    simp only [hcoe, rpLoop_inc_events]
    simp [List.count_cons, List.count_append, List.count_replicate, hlen]

/-- Witness for C10 amended: one `Run` call and a three-operation
`RunParallel` call; the former yields 0 increments, the latter exactly 3. -/
theorem increment_policy_run_and_runparallel_witness :
    (RunT ⟨"a", 0, 0⟩ ((5 : Nat), (none : Option Nat))).events.count
        TrackerEvent.inc = 0 ∧
    (RunParallelT ⟨"b", 3, 0, false, 0⟩
        (fun i => ((i : Nat), if i = 1 then some i else none))
        [2, 0, 1]).events.count TrackerEvent.inc = (3 : Int).toNat :=
  increment_policy_run_and_runparallel ⟨"a", 0, 0⟩
    ((5 : Nat), (none : Option Nat)) ⟨"b", 3, 0, false, 0⟩
    (fun i => ((i : Nat), if i = 1 then some i else none)) [2, 0, 1]
    (by decide) rfl (by decide)

end Goutils
